import Mathlib

/-!
Verification of the dibabel synchronisation core.

This file gives a shallow embedding in Lean of the algorithmic core of the
dibabel repository (src/dibabel/): the revision reconciler
(`SourcePage.find_new_revisions`, `SourcePage.get_history`), the content
adapter's module-quote handling (`sub_module` inside
`SourcePage.replace_templates`), the dependency resolver
(`SiteCache.update_template_cache`), the orchestrator's per-target decision
logic (`Dibabel.process_page`), and the helpers `utils.parse_page_urls` and
`utils.batches`.  Python sets whose only observed property is emptiness are
modelled as lists; dictionaries are modelled as association lists with
insertion-order upsert semantics; Python exceptions are modelled with
`Except`.  Stable Python sorts (`sorted`) are modelled with
`List.insertionSort`, which is also stable, hence produces the same list.
-/

namespace Dibabel

/-- A master-page revision record (`RevComment` in SourcePage.py): user,
timestamp, edit comment and full page content at that revision.  Timestamps
are modelled as naturals. -/
structure RevComment where
  user : String
  ts : Nat
  comment : String
  content : String
deriving DecidableEq, Repr

/-! ## utils.batches -/

/-- The loop of `utils.batches`: accumulate values into `res`, emitting `res`
as a batch whenever it reaches `batch_size` elements, and emitting the final
partial batch when non-empty. -/
def batchesGo (batch_size : Nat) : List α → List α → List (List α)
  | [], res => if res.isEmpty then [] else [res]
  | value :: items, res =>
    let res' := res ++ [value]
    if batch_size ≤ res'.length then res' :: batchesGo batch_size items []
    else batchesGo batch_size items res'

/-- `utils.batches(items, batch_size)`: split `items` into consecutive chunks
of at most `batch_size` elements. -/
def batches (items : List α) (batch_size : Nat) : List (List α) :=
  batchesGo batch_size items []

lemma batchesGo_spec {α : Type _} (n : Nat) (hn : 1 ≤ n) :
    ∀ (items res : List α), res.length < n →
      (batchesGo n items res).flatten = res ++ items ∧
      ∀ b ∈ batchesGo n items res, b ≠ [] ∧ b.length ≤ n := by
  intro items
  induction items with
  | nil =>
    intro res hres
    by_cases h : res.isEmpty
    · simp [batchesGo, h, List.isEmpty_iff.mp h]
    · refine ⟨by simp [batchesGo, h], ?_⟩
      intro b hb
      simp [batchesGo, h] at hb
      subst hb
      exact ⟨fun he => h (by simp [he]), Nat.le_of_lt hres⟩
  | cons value items ih =>
    intro res hres
    by_cases h : n ≤ (res ++ [value]).length
    · have h0 : (0 : Nat) < n := hn
      obtain ⟨ihj, ihm⟩ := ih [] h0
      constructor
      · simp only [batchesGo, h, if_true, List.flatten_cons, ihj]
        simp
      · intro b hb
        simp only [batchesGo, h, if_true, List.mem_cons] at hb
        rcases hb with rfl | hb
        · refine ⟨by simp, ?_⟩
          have : (res ++ [value]).length = res.length + 1 := by simp
          omega
        · exact ihm b hb
    · have hlt : (res ++ [value]).length < n := Nat.lt_of_not_le h
      obtain ⟨ihj, ihm⟩ := ih (res ++ [value]) hlt
      constructor
      · simp only [batchesGo, h, if_false, ihj]
        simp
      · intro b hb
        simp only [batchesGo, h, if_false] at hb
        exact ihm b hb

/-- C10: for every finite sequence of items and every batch size `n ≥ 1`,
concatenating the batches of `batches items n` in order yields exactly the
original sequence, every batch is non-empty, and every batch has at most `n`
elements. -/
theorem batches_flatten_eq_and_bounds {α : Type _} (items : List α) (n : Nat)
    (hn : 1 ≤ n) :
    (batches items n).flatten = items ∧
    ∀ b ∈ batches items n, b ≠ [] ∧ b.length ≤ n := by
  have h := batchesGo_spec n hn items [] hn
  simpa [batches] using h

/-- Witness for C10 at a concrete input: `batches [1,2,3] 2` splits losslessly
into non-empty chunks of size at most 2. -/
theorem batches_flatten_eq_and_bounds_witness :
    (batches [1, 2, 3] 2).flatten = [1, 2, 3] ∧
    ∀ b ∈ batches [1, 2, 3] 2, b ≠ [] ∧ b.length ≤ 2 :=
  batches_flatten_eq_and_bounds [1, 2, 3] 2 (by decide)

/-! ## SourcePage.find_new_revisions

The reconciler walks the master's revision history (newest first, as yielded
by `get_history`) and compares each revision — both adapted via
`self.replace_templates(content, target.site)` and raw — against the target's
current content.  The adapter call is modelled by an explicit function
argument `adapt` (the adapter itself is modelled separately below); its
result triple is `(adjusted content, missing set, non-shared set)`. -/

/-- Result of one `replace_templates` call: adjusted content, missing
dependencies and non-shared dependencies (sets modelled as lists; only
emptiness of the missing set is branched on). -/
structure AdaptResult where
  content : String
  missing : List String
  nonshared : List String
deriving DecidableEq, Repr

/-- The `for hist in self.get_history()` loop of `find_new_revisions`.
State: remaining history, accumulated `diff_hist`, and the
`desired_content` / `missing_dependencies` / `nonshared_dependencies`
variables (Python `None` before the first iteration).  Falling off the end of
the list is the loop's `else:` clause setting `found = False`. -/
def find_new_revisions_go (adapt : String → AdaptResult) (cur_content : String) :
    List RevComment → List RevComment → Option String →
    Option (List String) → Option (List String) →
    Bool × List RevComment × Option String × Option (List String) × Option (List String)
  | [], diff_hist, d, m, n => (false, diff_hist, d, m, n)
  | hist :: rest, diff_hist, d, m, n =>
    let a := adapt hist.content
    match d with
    | none =>
      -- comparing the current (latest) revision of the master page
      if a.content = cur_content ∨ a.missing ≠ [] then
        (true, diff_hist, some a.content, some a.missing, some a.nonshared)
      else if hist.content = cur_content then
        -- local template renamed without any master change: re-add last revision
        (true, diff_hist ++ [hist], some a.content, some a.missing, some a.nonshared)
      else
        find_new_revisions_go adapt cur_content rest (diff_hist ++ [hist])
          (some a.content) (some a.missing) (some a.nonshared)
    | some _ =>
      if a.content = cur_content ∨ hist.content = cur_content then
        -- one of the previous revisions matches the target's current state
        (true, diff_hist, d, m, n)
      else
        find_new_revisions_go adapt cur_content rest (diff_hist ++ [hist]) d m n

/-- `SourcePage.find_new_revisions(target)`.  The target's current content is
an `Option String` (`None`/missing page); the Python guard `if not
cur_content` also treats the empty string as absent.  Returns
`(found, diff_hist, desired_content, missing, nonshared)`. -/
def find_new_revisions (adapt : String → AdaptResult) (history : List RevComment)
    (cur_content : Option String) :
    Bool × List RevComment × Option String × Option (List String) × Option (List String) :=
  match cur_content with
  | none => (false, [], none, none, none)
  | some cur =>
    if cur = "" then (false, [], none, none, none)
    else find_new_revisions_go adapt cur history [] none none none

/-- C5: on the first (newest) revision, if the adapted content of the
master's latest revision equals the target's current content, the reconciler
stops with `found = true`, an empty change list, and the desired content and
dependency sets taken from that newest revision. -/
theorem find_new_revisions_latest_match (adapt : String → AdaptResult)
    (hist : RevComment) (rest : List RevComment) (cur : String)
    (hcur : cur ≠ "") (hadj : (adapt hist.content).content = cur) :
    find_new_revisions adapt (hist :: rest) (some cur) =
      (true, [], some (adapt hist.content).content,
        some (adapt hist.content).missing, some (adapt hist.content).nonshared) := by
  simp [find_new_revisions, find_new_revisions_go, hcur, hadj]

/-- Witness for C5: a one-revision history whose adaptation equals the
target's current content. -/
theorem find_new_revisions_latest_match_witness :
    find_new_revisions (fun s => ⟨s ++ "!", [], []⟩) [⟨"u", 5, "c", "A"⟩] (some "A!") =
      (true, [], some "A!", some [], some []) := by
  have h := find_new_revisions_latest_match (fun s => ⟨s ++ "!", [], []⟩)
    ⟨"u", 5, "c", "A"⟩ [] "A!" (by decide) (by decide)
  simpa using h

/-- C6: on the first (newest) revision, if the adapted content differs from
the target's current content and there are no missing dependencies, but the
raw (unadapted) revision content equals the target's current content, the
reconciler stops with `found = true` and a change list containing exactly
that one newest revision (rename-only divergence). -/
theorem find_new_revisions_rename_only (adapt : String → AdaptResult)
    (hist : RevComment) (rest : List RevComment) (cur : String)
    (hcur : cur ≠ "") (hadj : (adapt hist.content).content ≠ cur)
    (hmiss : (adapt hist.content).missing = [])
    (hraw : hist.content = cur) :
    find_new_revisions adapt (hist :: rest) (some cur) =
      (true, [hist], some (adapt hist.content).content,
        some (adapt hist.content).missing, some (adapt hist.content).nonshared) := by
  have hcond : ¬ ((adapt hist.content).content = cur ∨ (adapt hist.content).missing ≠ []) := by
    simp [hadj, hmiss]
  simp only [find_new_revisions, find_new_revisions_go]
  rw [if_neg hcur, if_neg hcond, if_pos hraw]
  simp

/-- Witness for C6: the target equals the raw latest revision but not its
adaptation, with no missing dependencies. -/
theorem find_new_revisions_rename_only_witness :
    find_new_revisions (fun s => ⟨s ++ "!", [], ["N"]⟩) [⟨"u", 5, "c", "A"⟩] (some "A") =
      (true, [⟨"u", 5, "c", "A"⟩], some "A!", some [], some ["N"]) := by
  have h := find_new_revisions_rename_only (fun s => ⟨s ++ "!", [], ["N"]⟩)
    ⟨"u", 5, "c", "A"⟩ [] "A" (by decide) (by decide) (by decide) (by decide)
  simpa using h

lemma find_new_revisions_go_subsequent (adapt : String → AdaptResult)
    (cur dc : String) (m n : Option (List String)) :
    ∀ (rest : List RevComment) (i : Nat) (rmatch : RevComment) (diff : List RevComment),
      rest.get? i = some rmatch →
      (∀ r ∈ rest.take i, (adapt r.content).content ≠ cur ∧ r.content ≠ cur) →
      ((adapt rmatch.content).content = cur ∨ rmatch.content = cur) →
      find_new_revisions_go adapt cur rest diff (some dc) m n =
        (true, diff ++ rest.take i, some dc, m, n) := by
  intro rest
  induction rest with
  | nil => intro i rmatch diff hget; simp at hget
  | cons h t ih =>
    intro i rmatch diff hget hprev hmatch
    cases i with
    | zero =>
      have hh : h = rmatch := by simpa using hget
      subst hh
      simp only [find_new_revisions_go]
      rw [if_pos hmatch]
      simp
    | succ i =>
      have hh : (adapt h.content).content ≠ cur ∧ h.content ≠ cur :=
        hprev h (by simp)
      have hcond : ¬ ((adapt h.content).content = cur ∨ h.content = cur) := by
        simp [hh.1, hh.2]
      simp only [find_new_revisions_go]
      rw [if_neg hcond]
      have hrec := ih i rmatch (diff ++ [h]) (by simpa using hget)
        (fun r hr => hprev r (by simp [hr])) hmatch
      rw [hrec]
      simp

/-- C1: for a target with non-empty current content, when the reconciler
passes the newest revision (its adaptation differs from the target, no
missing dependencies, raw content differs too) and all of the next `i`
older revisions also match neither adapted nor raw, and then reaches an
older revision whose adapted or raw content equals the target's current
content, it stops with `found = true`, with the change list equal to exactly
the newer revisions visited before the matching one (in the order visited),
and with the desired content (and dependency sets) equal to the adaptation
of the newest revision. -/
theorem find_new_revisions_older_match (adapt : String → AdaptResult)
    (hist0 rmatch : RevComment) (rest : List RevComment) (cur : String) (i : Nat)
    (hcur : cur ≠ "")
    (h0adj : (adapt hist0.content).content ≠ cur)
    (h0miss : (adapt hist0.content).missing = [])
    (h0raw : hist0.content ≠ cur)
    (hget : rest.get? i = some rmatch)
    (hprev : ∀ r ∈ rest.take i,
      (adapt r.content).content ≠ cur ∧ r.content ≠ cur)
    (hmatch : (adapt rmatch.content).content = cur ∨ rmatch.content = cur) :
    find_new_revisions adapt (hist0 :: rest) (some cur) =
      (true, hist0 :: rest.take i, some (adapt hist0.content).content,
        some (adapt hist0.content).missing, some (adapt hist0.content).nonshared) := by
  have hcond : ¬ ((adapt hist0.content).content = cur ∨
      (adapt hist0.content).missing ≠ []) := by
    simp [h0adj, h0miss]
  simp only [find_new_revisions, find_new_revisions_go]
  rw [if_neg hcur, if_neg hcond, if_neg h0raw, List.nil_append,
    find_new_revisions_go_subsequent adapt cur _ _ _ rest i rmatch [hist0] hget hprev hmatch]
  simp

/-- Witness for C1, the "behind by two revisions" scenario: the target's
current content equals the adaptation of the master's content from two
revisions ago; reconciliation returns the two newer revisions as the change
list and the adapted latest revision as desired content. -/
theorem find_new_revisions_older_match_witness :
    find_new_revisions (fun s => ⟨s ++ "!", [], []⟩)
      [⟨"u", 3, "c3", "C"⟩, ⟨"v", 2, "c2", "B"⟩, ⟨"w", 1, "c1", "A"⟩] (some "A!") =
      (true, [⟨"u", 3, "c3", "C"⟩, ⟨"v", 2, "c2", "B"⟩], some "C!", some [], some []) := by
  have h := find_new_revisions_older_match (fun s => ⟨s ++ "!", [], []⟩)
    ⟨"u", 3, "c3", "C"⟩ ⟨"w", 1, "c1", "A"⟩
    [⟨"v", 2, "c2", "B"⟩, ⟨"w", 1, "c1", "A"⟩] "A!" 1
    (by decide) (by decide) (by decide) (by decide) (by decide)
    (by decide) (Or.inl (by decide))
  simpa using h

/-! ## SourcePage.get_history

The generator first replays the already-cached `self.history`, then fetches
further batches; every fetched batch is sorted with
`sorted(result, key=lambda v: v.ts, reverse=True)` (descending by timestamp,
stable) and appended to the cache, after which the newly appended slice is
yielded.  The remote collaborator's responses are modelled as the list of
batches the generator receives. -/

/-- The descending-by-timestamp order used by
`sorted(result, key=lambda v: v.ts, reverse=True)`. -/
def tsGe (a b : RevComment) : Prop := b.ts ≤ a.ts

instance : DecidableRel tsGe := fun a b => Nat.decLe b.ts a.ts

instance : IsTotal RevComment tsGe := ⟨fun a b => Nat.le_total b.ts a.ts⟩

instance : IsTrans RevComment tsGe := ⟨fun _ _ _ h1 h2 => le_trans h2 h1⟩

/-- Python's stable sort, descending by timestamp, modelled by the (also
stable) insertion sort: both produce the same list. -/
def sortRevsDesc (result : List RevComment) : List RevComment :=
  List.insertionSort tsGe result

/-- One iteration of the `while self.generator` loop of
`SourcePage.get_history`: the freshly fetched batch is sorted descending by
timestamp and its elements appended to the cached `self.history` list. -/
def merge_batch (history batch : List RevComment) : List RevComment :=
  history ++ sortRevsDesc batch

/-- The cached `self.history` after the remote has returned the given
batches, in order. -/
def history_after (history : List RevComment) :
    List (List RevComment) → List RevComment
  | [] => history
  | batch :: rest => history_after (merge_batch history batch) rest

/-- The remote history pagination contract: each successive batch contains
only revisions no newer than everything already cached (the API pages
backwards in time). -/
def BatchesBackward : List RevComment → List (List RevComment) → Prop
  | _, [] => True
  | history, batch :: rest =>
    (∀ x ∈ batch, ∀ y ∈ history, x.ts ≤ y.ts) ∧
    BatchesBackward (merge_batch history batch) rest

lemma merge_batch_sorted {h b : List RevComment}
    (hh : List.Sorted tsGe h) (hb : ∀ x ∈ b, ∀ y ∈ h, x.ts ≤ y.ts) :
    List.Sorted tsGe (merge_batch h b) := by
  unfold merge_batch
  rw [List.Sorted, List.pairwise_append]
  refine ⟨hh, List.sorted_insertionSort tsGe b, ?_⟩
  intro a ha x hx
  have hx' : x ∈ b := (List.perm_insertionSort tsGe b).mem_iff.mp hx
  exact hb x hx' a ha

/-- C3 counterexample: merging a single fetched batch holding revisions with
timestamps 1 and 2 caches them as `[ts=2, ts=1]` — newest first.  The claimed
chronologically *ascending* (oldest-first) order is violated: `reverse=True`
keeps each batch newest-first and nothing reverses it. -/
theorem history_after_not_ascending :
    history_after [] [[⟨"u", 1, "c1", "a"⟩, ⟨"u", 2, "c2", "b"⟩]] =
      [⟨"u", 2, "c2", "b"⟩, ⟨"u", 1, "c1", "a"⟩] ∧
    ¬ List.Sorted (fun a b : RevComment => a.ts ≤ b.ts)
      (history_after [] [[⟨"u", 1, "c1", "a"⟩, ⟨"u", 2, "c2", "b"⟩]]) := by
  constructor
  · rfl
  · decide

/-- C3 amended: the locally cached window is always sorted chronologically
*descending* (newest first), and requesting further batches never drops or
reorders previously observed revisions: the earlier cache (hence every
previously yielded revision sequence) is a prefix of every later one, and the
merged cache remains chronologically descending after each batch is merged
in, given that the remote pages backwards in time. -/
theorem history_after_desc_sorted_prefix_stable :
    ∀ (bs : List (List RevComment)) (h : List RevComment),
      List.Sorted tsGe h → BatchesBackward h bs →
      h <+: history_after h bs ∧ List.Sorted tsGe (history_after h bs) := by
  intro bs
  induction bs with
  | nil => intro h hs _; exact ⟨List.prefix_refl h, hs⟩
  | cons b rest ih =>
    intro h hs hb
    obtain ⟨hb1, hb2⟩ := hb
    have hm : List.Sorted tsGe (merge_batch h b) := merge_batch_sorted hs hb1
    obtain ⟨hp, hsorted⟩ := ih (merge_batch h b) hm hb2
    refine ⟨?_, by simpa [history_after] using hsorted⟩
    have h1 : h <+: merge_batch h b := List.prefix_append h (sortRevsDesc b)
    simpa [history_after] using h1.trans hp

/-- Witness for amended C3: two backward-progressing batches merge to the
descending cache `[ts=2, ts=1]`, of which the initial empty cache is a
prefix. -/
theorem history_after_desc_sorted_prefix_stable_witness :
    [] <+: history_after [] [[⟨"u", 2, "c2", "b"⟩], [⟨"u", 1, "c1", "a"⟩]] ∧
    List.Sorted tsGe (history_after [] [[⟨"u", 2, "c2", "b"⟩], [⟨"u", 1, "c1", "a"⟩]]) :=
  history_after_desc_sorted_prefix_stable [[⟨"u", 2, "c2", "b"⟩], [⟨"u", 1, "c1", "a"⟩]] []
    (by simp) (by simp [BatchesBackward, merge_batch, sortRevsDesc, List.insertionSort])

/-! ## sub_module quote handling (SourcePage.replace_templates)

`sub_module` rewrites a quoted module name `m.group(2)` — a literal like
`'Name'` or `"Name"` — into the target site's replacement `repl`.  The quote
selection logic (SourcePage.py lines 159-167) is modelled over character
lists; `quote` is the literal's original first character. -/

/-- Python's `repl.replace("'", "\\'")`: each single quote becomes
backslash + single quote. -/
def replaceQuoteEsc : List Char → List Char
  | [] => []
  | c :: rest =>
    if c = '\'' then '\\' :: '\'' :: replaceQuoteEsc rest
    else c :: replaceQuoteEsc rest

/-- The quote-selection logic of `sub_module`: keep the original quote when
the replacement does not contain it; otherwise try the other quote; otherwise
emit a single-quoted literal with single quotes backslash-escaped. -/
def sub_module_quote (quote : Char) (repl : List Char) : List Char :=
  if quote ∉ repl then quote :: repl ++ [quote]
  else
    let quote2 := if quote = '\'' then '"' else '\''
    if quote2 ∉ repl then quote2 :: repl ++ [quote2]
    else '\'' :: replaceQuoteEsc repl ++ ['\'']

/-- `hasUnescaped d s` holds when `s` contains an occurrence of `d` that is
not preceded by an (unconsumed) backslash — i.e. an occurrence a string
literal delimited by `d` would terminate at. -/
def hasUnescaped (d : Char) : List Char → Bool
  | [] => false
  | '\\' :: _ :: rest => hasUnescaped d rest
  | c :: rest => c = d || hasUnescaped d rest

/-- The body of an emitted literal: everything strictly between the two
delimiters. -/
def literalBody (l : List Char) : List Char := (l.drop 1).dropLast

lemma hasUnescaped_eq_false_of_not_mem {d : Char} :
    ∀ {l : List Char}, d ∉ l → hasUnescaped d l = false := by
  intro l
  induction l using hasUnescaped.induct d with
  | case1 => intro _; rfl
  | case2 c rest ih =>
    intro hd
    have : d ∉ rest := fun h => hd (by simp [h])
    simpa [hasUnescaped] using ih this
  | case3 c rest hne ih =>
    intro hd
    have h1 : ¬ c = d := fun h => hd (by simp [h])
    have h2 : d ∉ rest := fun h => hd (by simp [h])
    simp [hasUnescaped, h1, ih h2]

lemma hasUnescaped_replaceQuoteEsc {repl : List Char} (hb : '\\' ∉ repl) :
    hasUnescaped '\'' (replaceQuoteEsc repl) = false := by
  induction repl with
  | nil => rfl
  | cons c rest ih =>
    have hb1 : ¬ c = '\\' := fun h => hb (by simp [h])
    have hb2 : '\\' ∉ rest := fun h => hb (by simp [h])
    by_cases hq : c = '\''
    · simpa [replaceQuoteEsc, hq, hasUnescaped] using ih hb2
    · simp only [replaceQuoteEsc, if_neg hq]
      cases hr : replaceQuoteEsc rest with
      | nil => simp [hasUnescaped, hb1, hq]
      | cons x xs =>
        have : hasUnescaped '\'' (c :: x :: xs) = (decide (c = '\'') || hasUnescaped '\'' (x :: xs)) := by
          simp [hasUnescaped, hb1]
        rw [this, ← hr, ih hb2]
        simp [hq]

/-- C7 counterexample: with an original double-quoted reference and the
replacement `a'b"c` (containing both quote characters), `sub_module_quote`
emits `'a\'b"c'` — the *single* quote is escaped and the original quote
character `"` occurs *unescaped* in the emitted body.  The claim that "the
original quote character is escaped" fails for a double-quoted original. -/
theorem sub_module_quote_original_not_escaped :
    ('"' ∈ ['a', '\'', 'b', '"', 'c'] ∧ '\'' ∈ ['a', '\'', 'b', '"', 'c']) ∧
    sub_module_quote '"' ['a', '\'', 'b', '"', 'c'] =
      ['\'', 'a', '\\', '\'', 'b', '"', 'c', '\''] ∧
    hasUnescaped '"' (literalBody (sub_module_quote '"' ['a', '\'', 'b', '"', 'c'])) = true := by
  refine ⟨by decide, by decide, by decide⟩

/-- C7 amended: the original quote character is preserved when the
replacement does not contain it; if the replacement contains the original
quote but not the other one, the other quote is used; if the replacement
contains both quote characters, the literal is emitted single-quoted with
every single quote backslash-escaped, whatever the original quote character
was; and — for replacements containing no backslash of their own — the
adapter never emits an unescaped occurrence of the emitted literal's own
delimiter inside its body. -/
theorem sub_module_quote_cases (quote : Char) (repl : List Char)
    (_hq : quote = '\'' ∨ quote = '"') (hb : '\\' ∉ repl) :
    (quote ∉ repl → sub_module_quote quote repl = quote :: repl ++ [quote]) ∧
    (∀ quote2, quote2 = (if quote = '\'' then '"' else '\'') →
      quote ∈ repl → quote2 ∉ repl →
      sub_module_quote quote repl = quote2 :: repl ++ [quote2]) ∧
    (∀ quote2, quote2 = (if quote = '\'' then '"' else '\'') →
      quote ∈ repl → quote2 ∈ repl →
      sub_module_quote quote repl = '\'' :: replaceQuoteEsc repl ++ ['\'']) ∧
    (∀ d, sub_module_quote quote repl = d :: literalBody (sub_module_quote quote repl) ++ [d] →
      hasUnescaped d (literalBody (sub_module_quote quote repl)) = false) := by
  refine ⟨fun h => by simp [sub_module_quote, h], ?_, ?_, ?_⟩
  · intro quote2 hq2 h1 h2
    subst hq2
    simp [sub_module_quote, h1, h2]
  · intro quote2 hq2 h1 h2
    subst hq2
    simp [sub_module_quote, h1, h2]
  · intro d hd
    by_cases h1 : quote ∈ repl
    · by_cases h2 : (if quote = '\'' then '"' else '\'') ∈ repl
      · have he : sub_module_quote quote repl = '\'' :: replaceQuoteEsc repl ++ ['\''] := by
          simp [sub_module_quote, h1, h2]
        have hbody : literalBody (sub_module_quote quote repl) = replaceQuoteEsc repl := by
          simp [he, literalBody]
        have hd' : d = '\'' := by
          rw [he] at hd
          have := congrArg (fun l => l.headD ' ') hd
          simpa using this.symm
        rw [hbody, hd']
        exact hasUnescaped_replaceQuoteEsc hb
      · have he : sub_module_quote quote repl =
            (if quote = '\'' then '"' else '\'') :: repl ++ [if quote = '\'' then '"' else '\''] := by
          simp [sub_module_quote, h1, h2]
        have hbody : literalBody (sub_module_quote quote repl) = repl := by
          simp [he, literalBody]
        have hd' : d = (if quote = '\'' then '"' else '\'') := by
          rw [he] at hd
          have := congrArg (fun l => l.headD ' ') hd
          simpa using this.symm
        rw [hbody, hd']
        exact hasUnescaped_eq_false_of_not_mem h2
    · have he : sub_module_quote quote repl = quote :: repl ++ [quote] := by
        simp [sub_module_quote, h1]
      have hbody : literalBody (sub_module_quote quote repl) = repl := by
        simp [he, literalBody]
      have hd' : d = quote := by
        rw [he] at hd
        have := congrArg (fun l => l.headD ' ') hd
        simpa using this.symm
      rw [hbody, hd']
      exact hasUnescaped_eq_false_of_not_mem h1

/-- Witness for amended C7: original `'`-quoted reference with replacement
`Bar's` (contains `'` but not `"`): the adapter switches to double quotes;
and with replacement `a'b"c` it emits the escaped single-quoted form whose
body has no unescaped delimiter. -/
theorem sub_module_quote_cases_witness :
    sub_module_quote '\'' ['B', 'a', 'r', '\'', 's'] =
      ['"', 'B', 'a', 'r', '\'', 's', '"'] ∧
    hasUnescaped '\'' (literalBody (sub_module_quote '\'' ['a', '\'', 'b', '"', 'c'])) = false := by
  constructor
  · exact (sub_module_quote_cases '\'' ['B', 'a', 'r', '\'', 's'] (Or.inl rfl)
      (by decide)).2.1 '"' (by decide) (by decide) (by decide)
  · exact (sub_module_quote_cases '\'' ['a', '\'', 'b', '"', 'c'] (Or.inl rfl)
      (by decide)).2.2.2 '\'' (by decide)

/-! ## utils.parse_page_urls -/

/-- The site character class of `reUrl` (`[a-z0-9-_.]` under
`re.IGNORECASE`: letters of either case, digits, dash, underscore, dot). -/
def isSiteChar (c : Char) : Bool :=
  decide ('a' ≤ c ∧ c ≤ 'z') || decide ('A' ≤ c ∧ c ≤ 'Z') ||
  decide ('0' ≤ c ∧ c ≤ '9') || c == '-' || c == '_' || c == '.'

/-- Case-insensitive literal match: `stripCI pat s` strips the (lowercase)
pattern `pat` from the front of `s`, returning the matched original
characters and the remainder. -/
def stripCI : List Char → List Char → Option (List Char × List Char)
  | [], s => some ([], s)
  | _ :: _, [] => none
  | p :: ps, c :: cs =>
    if c.toLower = p then (stripCI ps cs).map (fun r => (c :: r.1, r.2)) else none

/-- The anchored regular expression `reUrl`,
`^(?P<site>https://[a-z0-9-_.]+)/wiki/(?P<title>[^?#]+)$` with
`re.IGNORECASE`, as a deterministic matcher (the site class excludes `/` and
the title class can never consume `?` or `#`, so the regex admits no
backtracking).  Returns the `site` group (original text, scheme included)
and the `title` group. -/
def matchUrl (url : String) : Option (String × String) :=
  match stripCI "https://".data url.data with
  | none => none
  | some (pre, rest) =>
    let siteChars := rest.takeWhile isSiteChar
    let rest2 := rest.dropWhile isSiteChar
    if siteChars.isEmpty then none
    else
      match stripCI "/wiki/".data rest2 with
      | none => none
      | some (_, title) =>
        if title.isEmpty || title.any (fun c => c == '?' || c == '#') then none
        else some (String.mk (pre ++ siteChars), String.mk title)

/-- Hexadecimal digit value. -/
def hexVal (c : Char) : Option Nat :=
  if '0' ≤ c ∧ c ≤ '9' then some (c.toNat - '0'.toNat)
  else if 'a' ≤ c ∧ c ≤ 'f' then some (c.toNat - 'a'.toNat + 10)
  else if 'A' ≤ c ∧ c ≤ 'F' then some (c.toNat - 'A'.toNat + 10)
  else none

/-- `urllib.parse.unquote`, modelled bytewise: every valid `%XX` escape
becomes the character with code `XX`, invalid escapes are kept verbatim.
(Python decodes consecutive escaped bytes as UTF-8; multi-byte sequences are
modelled one character per byte, which no claim depends on.) -/
def pyUnquoteFuel : Nat → List Char → List Char
  | 0, l => l
  | _, [] => []
  | fuel + 1, c :: rest =>
    if c = '%' then
      match rest with
      | a :: b :: rest' =>
        match hexVal a, hexVal b with
        | some ha, some hb => Char.ofNat (16 * ha + hb) :: pyUnquoteFuel fuel rest'
        | _, _ => '%' :: pyUnquoteFuel fuel rest
      | _ => '%' :: pyUnquoteFuel fuel rest
    else c :: pyUnquoteFuel fuel rest

/-- Entry point: each step consumes at least one character, so a fuel equal
to the input length never runs out. -/
def pyUnquote (l : List Char) : List Char := pyUnquoteFuel l.length l

/-- Python string comparison (`sorted(page_urls)`): lexicographic by code
point, a proper prefix sorting first. -/
def charListLe : List Char → List Char → Bool
  | [], _ => true
  | _ :: _, [] => false
  | a :: as, b :: bs =>
    if a < b then true
    else if b < a then false
    else charListLe as bs

/-- Python dict assignment `d[k] = v`: replace in place when the key exists,
append otherwise. -/
def dictSet {β : Type _} (k : String) (v : β) :
    List (String × β) → List (String × β)
  | [] => [(k, v)]
  | (k', v') :: rest =>
    if k' = k then (k', v) :: rest else (k', v') :: dictSet k v rest

/-- The configured source site recognised by `parse_page_urls`
(`'https://www.mediawiki.org'`, compared by exact string equality against
the matched site group). -/
def sourceSiteUrl : String := "https://www.mediawiki.org"

/-- Accumulator of the `for url in sorted(page_urls)` loop. -/
structure ParseState where
  bad_urls : List String
  source : Option String
  targets : List (String × String)
deriving DecidableEq, Repr

/-- One iteration of the `parse_page_urls` loop: an unparsable URL is
appended to `bad_urls` and skipped; a source-site URL overwrites `source`;
any other URL upserts its percent-decoded title into `targets` (sites are
identified by their URL string — `SiteCache.getSite` returns one cached site
object per URL). -/
def parse_step (st : ParseState) (url : String) : ParseState :=
  match matchUrl url with
  | none => { st with bad_urls := st.bad_urls ++ [url] }
  | some (site_url, title) =>
    let t := String.mk (pyUnquote title.data)
    if site_url = sourceSiteUrl then { st with source := some t }
    else { st with targets := dictSet site_url t st.targets }

/-- `utils.parse_page_urls(sites, page_urls, qid)`: process the URLs in
sorted order; raise `ValueError` (modelled as `Except.error`; the Python
message also formats `qid`) when no source-site title was found (the Python
guard `if not source` also treats an empty title as absent).  On success
returns (source title, targets dict, bad urls — printed in Python). -/
def parse_page_urls (page_urls : List String) :
    Except String (String × List (String × String) × List String) :=
  let sorted := page_urls.insertionSort (fun a b => charListLe a.data b.data = true)
  let st := sorted.foldl parse_step ⟨[], none, []⟩
  match st.source with
  | none => Except.error "Unable to find source page"
  | some s =>
    if s = "" then Except.error "Unable to find source page"
    else Except.ok (s, st.targets, st.bad_urls)

lemma foldl_parse_step_source_none :
    ∀ (urls : List String) (st : ParseState), st.source = none →
      (∀ url ∈ urls, ∀ site title,
        matchUrl url = some (site, title) → site ≠ sourceSiteUrl) →
      (urls.foldl parse_step st).source = none := by
  intro urls
  induction urls with
  | nil => intro st hst _; exact hst
  | cons url rest ih =>
    intro st hst hall
    have hstep : (parse_step st url).source = none := by
      unfold parse_step
      cases hm : matchUrl url with
      | none => exact hst
      | some p =>
        have hne : p.1 ≠ sourceSiteUrl := hall url (by simp) p.1 p.2 (by simpa using hm)
        simp only [if_neg hne]
        exact hst
    exact ih (parse_step st url) hstep (fun u hu => hall u (by simp [hu]))

/-- C9 counterexample: two distinct source-site URLs in one URL list are
*not* an error — `parse_page_urls` silently keeps the title of the
lexicographically last source URL (here `B`).  The claim that ambiguity is
an error fails. -/
theorem parse_page_urls_two_sources_ok :
    parse_page_urls
        ["https://www.mediawiki.org/wiki/B", "https://www.mediawiki.org/wiki/A"] =
      Except.ok ("B", [], []) := by
  rfl

/-- C9 amended: absence of a source-site URL is an error (the resource is
rejected); URLs that do not parse as `site/wiki/title` are appended to the
reported bad-URL list and skipped without raising; and a second source-site
URL is *not* an error — it simply overwrites the previously found source
title (the sorted processing order makes the lexicographically last source
URL win). -/
theorem parse_page_urls_source_required_bad_skipped (page_urls : List String)
    (st : ParseState) (url : String) (site title : String) :
    ((∀ u ∈ page_urls, ∀ s t, matchUrl u = some (s, t) → s ≠ sourceSiteUrl) →
      parse_page_urls page_urls = Except.error "Unable to find source page") ∧
    (matchUrl url = none →
      parse_step st url = { st with bad_urls := st.bad_urls ++ [url] }) ∧
    (matchUrl url = some (site, title) → site = sourceSiteUrl →
      parse_step st url = { st with source := some (String.mk (pyUnquote title.data)) }) := by
  refine ⟨?_, ?_, ?_⟩
  · intro hall
    unfold parse_page_urls
    have hmem : ∀ u ∈ page_urls.insertionSort
        (fun a b => charListLe a.data b.data = true), ∀ s t,
        matchUrl u = some (s, t) → s ≠ sourceSiteUrl := by
      intro u hu
      exact hall u ((List.perm_insertionSort _ page_urls).mem_iff.mp hu)
    have hnone := foldl_parse_step_source_none _ ⟨[], none, []⟩ rfl hmem
    simp only [hnone]
  · intro hm
    unfold parse_step
    rw [hm]
  · intro hm hs
    subst hs
    unfold parse_step
    rw [hm]
    simp

/-- Witness for amended C9: a list with only an unparsable URL and a
non-source URL errors out; the unparsable URL only lands in `bad_urls`; a
source URL overwrites the source field of any state. -/
theorem parse_page_urls_source_required_bad_skipped_witness :
    parse_page_urls ["not a url"] = Except.error "Unable to find source page" ∧
    parse_step ⟨[], none, []⟩ "not a url" = ⟨["not a url"], none, []⟩ ∧
    parse_step ⟨[], some "A", []⟩ "https://www.mediawiki.org/wiki/B" =
      ⟨[], some "B", []⟩ := by
  refine ⟨?_, ?_, ?_⟩
  · exact (parse_page_urls_source_required_bad_skipped
      ["not a url"] ⟨[], none, []⟩ "" "" "").1
      (by
        intro u hu s t hm
        simp only [List.mem_singleton] at hu
        subst hu
        rw [show matchUrl "not a url" = none from rfl] at hm
        exact absurd hm (by simp))
  · exact (parse_page_urls_source_required_bad_skipped [] ⟨[], none, []⟩
      "not a url" "" "").2.1 (by decide)
  · have h := (parse_page_urls_source_required_bad_skipped [] ⟨[], some "A", []⟩
      "https://www.mediawiki.org/wiki/B" "https://www.mediawiki.org" "B").2.2
      (by decide) rfl
    exact h.trans (by decide)

/-! ## SiteCache.update_template_cache

The resolver receives the titles referenced by the master content, asks the
source site for their normalizations/redirects (batched; modelled by the
accumulated `normalized` and `redirects` item lists of the external
responses), and asks the knowledge graph for the unknown terminal names
(modelled by `kg_groups`: the grouped query result of
`list_to_dict_of_sets`, keyed by `(id, ismult)` with the sitelink URL set as
values).  `ValueError`/`KeyError` are modelled as `Except.error`; on error
Python leaves its partial cache mutations behind, which no claim observes
and which this model discards. -/

/-- A `template_map` cache value: a Python dict from site URL to localized
title, possibly carrying the `'not-shared': True` marker key. -/
structure CacheEntry where
  sites : List (String × String)
  notShared : Bool
deriving DecidableEq, Repr

/-- `known_unshared` (SiteCache.py): never flagged not-shared. -/
def known_unshared : List String := ["Template:Documentation"]

/-- The `template_map` dict: canonical title → cache entry. -/
abbrev TemplateCache := List (String × CacheEntry)

/-- One iteration of the knowledge-graph resolution loop (SiteCache.py lines
113-120): parse the group's sitelink URLs into the source title `key` and
the localized-name dict `vals`; raise `ValueError` on a duplicate cache key;
flag resources the graph marks `ismult = 'false'` as not-shared unless
allow-listed; `unknowns.remove(key)` raises `KeyError` when `key` is
absent. -/
def resolveGroup (st : TemplateCache × List String)
    (group : (String × String) × List String) :
    Except String (TemplateCache × List String) :=
  match parse_page_urls group.2.dedup with
  | Except.error e => Except.error e
  | Except.ok (key, vals, _) =>
    if (List.lookup key st.1).isSome then
      Except.error ("WARNING: Logic error - " ++ key ++ " is already cached")
    else
      let entry : CacheEntry :=
        ⟨vals, group.1.2 == "false" && !(known_unshared.contains key)⟩
      if key ∈ st.2 then Except.ok (dictSet key entry st.1, st.2.erase key)
      else Except.error "KeyError: unknowns.remove"

/-- One iteration of the redirect/normalization propagation loop (SiteCache.py
lines 122-128), over `chain(redirects.items(), normalized.items())`: an
unresolved terminal caches the pair's source as not-shared; a resolved
terminal copies its entry to the source, unless the source is already
cached, which raises `ValueError`. -/
def propagatePair (cache : TemplateCache) (p : String × String) :
    Except String TemplateCache :=
  match List.lookup p.2 cache with
  | none => Except.ok (dictSet p.1 ⟨[], true⟩ cache)
  | some e =>
    if (List.lookup p.1 cache).isSome then
      Except.error ("WARNING: Logic error - " ++ p.1 ++ " is already cached")
    else Except.ok (dictSet p.1 e cache)

/-- The final fill loop (lines 130-132): any title still unresolved gets an
empty mapping, which prevents substitution and re-querying. -/
def fillEmpty (cache : TemplateCache) (t : String) : TemplateCache :=
  if (List.lookup t cache).isSome then cache else dictSet t ⟨[], false⟩ cache

/-- `SiteCache.update_template_cache(titles)`: drop already-cached titles,
compute the unknown terminal names, resolve them through the knowledge
graph, propagate redirect/normalization pairs, and fill the remainder with
empty entries. -/
def update_template_cache (cache : TemplateCache) (titles : List String)
    (normalized redirects : List (String × String))
    (kg_groups : List ((String × String) × List String)) :
    Except String TemplateCache := do
  let titles1 := titles.dedup.filter (fun t => (List.lookup t cache).isNone)
  if titles1.isEmpty then
    return cache
  let redirectKeys := redirects.map Prod.fst
  let normalizedKeys := normalized.map Prod.fst
  let unknowns :=
    ((redirects.map Prod.snd ++
        (normalized.map Prod.snd).filter (fun v => !redirectKeys.contains v) ++
        titles1.filter (fun t =>
          !redirectKeys.contains t && !normalizedKeys.contains t)).dedup).filter
      (fun v => (List.lookup v cache).isNone)
  let res ← kg_groups.foldlM resolveGroup (cache, unknowns)
  let cache2 ← (redirects ++ normalized).foldlM propagatePair res.1
  return titles1.foldl fillEmpty cache2

/-- C4 counterexample: the write-once check is *not* enforced on the
redirect/normalization branch whose terminal is uncached.  With
`titles = {X}`, API response `normalized = {X → D}`, `redirects = {X → C}`,
and a knowledge graph resolving only `C`: the pair `(X, C)` first caches
`X` with `C`'s entry, then the pair `(X, D)` — a second assignment to the
already-cached `X` — silently overwrites it with the not-shared marker
instead of raising `ValueError`; the whole call succeeds. -/
theorem update_template_cache_overwrite_no_error :
    propagatePair [("C", ⟨[], false⟩), ("X", ⟨[], false⟩)] ("X", "D") =
      Except.ok [("C", ⟨[], false⟩), ("X", ⟨[], true⟩)] ∧
    update_template_cache [] ["X"] [("X", "D")] [("X", "C")]
        [(("Q1", "true"), ["https://www.mediawiki.org/wiki/C"])] =
      Except.ok [("C", ⟨[], false⟩), ("X", ⟨[], true⟩)] := by
  exact ⟨rfl, rfl⟩

/-- C4 amended: a second write attempt raises the fatal `ValueError` in the
knowledge-graph resolution loop (an already-cached resolved key) and in the
redirect/normalization loop when the pair's terminal is cached; but a pair
whose terminal is uncached overwrites the already-cached source with the
not-shared marker without raising. -/
theorem update_template_cache_write_once_branches
    (cache : TemplateCache) (unknowns : List String) (idm : String × String)
    (vals : List String) (key : String) (tgts : List (String × String))
    (bad : List String) (frm dst : String) :
    (parse_page_urls vals.dedup = Except.ok (key, tgts, bad) →
      (List.lookup key cache).isSome = true →
      resolveGroup (cache, unknowns) (idm, vals) =
        Except.error ("WARNING: Logic error - " ++ key ++ " is already cached")) ∧
    ((List.lookup dst cache).isSome = true → (List.lookup frm cache).isSome = true →
      propagatePair cache (frm, dst) =
        Except.error ("WARNING: Logic error - " ++ frm ++ " is already cached")) ∧
    (List.lookup dst cache = none → (List.lookup frm cache).isSome = true →
      propagatePair cache (frm, dst) = Except.ok (dictSet frm ⟨[], true⟩ cache)) := by
  refine ⟨?_, ?_, ?_⟩
  · intro hp hk
    simp only [resolveGroup, hp]
    rw [if_pos hk]
  · intro hto hfrm
    obtain ⟨e, he⟩ := Option.isSome_iff_exists.mp hto
    simp only [propagatePair, he, hfrm, if_pos]
  · intro hto _
    simp only [propagatePair, hto]

/-- Witness for amended C4 at concrete caches: a duplicate resolved key
raises, a redirect pair with both ends cached raises, and a redirect pair
with uncached terminal overwrites the cached source without error. -/
theorem update_template_cache_write_once_branches_witness :
    resolveGroup ([("C", ⟨[], false⟩)], ["C"])
        (("Q1", "true"), ["https://www.mediawiki.org/wiki/C"]) =
      Except.error ("WARNING: Logic error - " ++ "C" ++ " is already cached") ∧
    propagatePair [("A", ⟨[], false⟩), ("B", ⟨[], true⟩)] ("A", "B") =
      Except.error ("WARNING: Logic error - " ++ "A" ++ " is already cached") ∧
    propagatePair [("A", ⟨[], false⟩)] ("A", "Z") =
      Except.ok [("A", ⟨[], true⟩)] := by
  refine ⟨?_, ?_, ?_⟩
  · exact (update_template_cache_write_once_branches [("C", ⟨[], false⟩)] ["C"]
      ("Q1", "true") ["https://www.mediawiki.org/wiki/C"] "C" [] [] "" "").1
      (by rfl) (by rfl)
  · exact (update_template_cache_write_once_branches
      [("A", ⟨[], false⟩), ("B", ⟨[], true⟩)] [] ("", "") [] "" [] [] "A" "B").2.1
      (by rfl) (by rfl)
  · exact (update_template_cache_write_once_branches
      [("A", ⟨[], false⟩)] [] ("", "") [] "" [] [] "A" "Z").2.2
      (by rfl) (by rfl)

/-- C8 counterexample: a redirect chain `A → B → C` where both `B` and `C`
resolve in the knowledge graph.  For the pair `(B, C)` the terminal `C`
obtained a cache entry, yet `B` is *not* cached with that entry: `B` is
already cached (it was itself a resolved terminal), so the call aborts with
the cache-consistency `ValueError` instead. -/
theorem update_template_cache_redirect_chain_error :
    update_template_cache [] ["A", "B"] [] [("A", "B"), ("B", "C")]
        [(("Q1", "true"), ["https://www.mediawiki.org/wiki/B"]),
         (("Q2", "true"), ["https://www.mediawiki.org/wiki/C",
                           "https://de.wikipedia.org/wiki/C_de"])] =
      Except.error ("WARNING: Logic error - " ++ "B" ++ " is already cached") := by
  rfl

/-- C8 amended: for a redirect/normalization pair `(from, to)` processed with
cache state `cache`, *provided `from` is not already cached*: if `to` has a
cache entry then `from` is cached with that same entry, and if `to` has none
then `from` is cached as not-shared — with no error in either case; when
`from` is already cached, the unresolved-terminal branch still proceeds
without error (overwriting), while a resolved terminal raises the
cache-consistency `ValueError`. -/
theorem propagatePair_cases (cache : TemplateCache) (frm dst : String)
    (e : CacheEntry) :
    (List.lookup dst cache = none →
      propagatePair cache (frm, dst) = Except.ok (dictSet frm ⟨[], true⟩ cache)) ∧
    (List.lookup dst cache = some e → List.lookup frm cache = none →
      propagatePair cache (frm, dst) = Except.ok (dictSet frm e cache)) ∧
    (List.lookup dst cache = some e → (List.lookup frm cache).isSome = true →
      propagatePair cache (frm, dst) =
        Except.error ("WARNING: Logic error - " ++ frm ++ " is already cached")) := by
  refine ⟨?_, ?_, ?_⟩
  · intro hto
    simp only [propagatePair, hto]
  · intro hto hfrm
    simp only [propagatePair, hto, hfrm, Option.isSome_none, Bool.false_eq_true,
      if_false]
  · intro hto hfrm
    simp only [propagatePair, hto, hfrm, if_pos]

/-- Witness for amended C8: an unresolved terminal caches the source as
not-shared; a resolved terminal copies its entry to an uncached source. -/
theorem propagatePair_cases_witness :
    propagatePair [("T", ⟨[("s", "t")], false⟩)] ("F", "U") =
      Except.ok [("T", ⟨[("s", "t")], false⟩), ("F", ⟨[], true⟩)] ∧
    propagatePair [("T", ⟨[("s", "t")], false⟩)] ("F", "T") =
      Except.ok [("T", ⟨[("s", "t")], false⟩), ("F", ⟨[("s", "t")], false⟩)] := by
  constructor
  · exact ((propagatePair_cases [("T", ⟨[("s", "t")], false⟩)] "F" "U"
      ⟨[], false⟩).1 (by rfl)).trans (by rfl)
  · exact ((propagatePair_cases [("T", ⟨[("s", "t")], false⟩)] "F" "T"
      ⟨[("s", "t")], false⟩).2.1 (by rfl) (by rfl)).trans (by rfl)

/-! ## Dibabel.process_page per-target decision logic -/

/-- What `process_page` does with one target after `find_new_revisions`
returns (the publish action covers both real edits and the dry-run /
restriction-suppressed "would update" path; the actual wiki write is an
external-collaborator call). -/
inductive TargetAction
  | blockedMissing
  | upToDate
  | publish
  | skipUnrecognized
deriving DecidableEq, Repr

/-- Python truthiness of an optional set (here: optional list): `None` and the
empty collection are falsy. -/
def pyTruthySet : Option (List String) → Bool
  | none => false
  | some l => !l.isEmpty

/-- The per-target decision logic of `Dibabel.process_page` (lines 68-112):
given the tuple returned by `find_new_revisions` and the `--force` flag,
returns (whether the non-shared warning is printed, the action taken). -/
def process_target (found : Bool) (changes : List RevComment)
    (missing_deps nonshared_deps : Option (List String)) (force : Bool) :
    Bool × TargetAction :=
  (pyTruthySet nonshared_deps,
    if pyTruthySet missing_deps then TargetAction.blockedMissing
    else if changes.isEmpty then TargetAction.upToDate
    else if found || force then TargetAction.publish
    else TargetAction.skipUnrecognized)

/-- C2: a non-shared dependency only controls the warning flag and never by
itself changes the action (in particular it never prevents publishing),
whereas a non-empty missing-dependency set blocks the target unconditionally:
the action is `blockedMissing`, never `publish`, for every value of the
`--force` flag. -/
theorem process_target_missing_blocks_nonshared_warns (found : Bool)
    (changes : List RevComment) (missing ns ns' : Option (List String))
    (force : Bool) :
    (pyTruthySet missing = true →
      (process_target found changes missing ns force).2 = TargetAction.blockedMissing ∧
      (process_target found changes missing ns force).2 ≠ TargetAction.publish) ∧
    (process_target found changes missing ns force).2 =
      (process_target found changes missing ns' force).2 ∧
    (process_target found changes missing ns force).1 = pyTruthySet ns := by
  refine ⟨fun hm => ?_, rfl, rfl⟩
  simp [process_target, hm]

/-- Witness for C2: a target with a missing dependency is blocked even with
`--force` set, and the non-shared set only drives the warning flag. -/
theorem process_target_missing_blocks_nonshared_warns_witness :
    (process_target false [⟨"u", 1, "c", "x"⟩] (some ["Template:Foo"])
        (some ["Template:Bar"]) true).2 = TargetAction.blockedMissing ∧
    (process_target false [⟨"u", 1, "c", "x"⟩] (some ["Template:Foo"])
        (some ["Template:Bar"]) true).2 ≠ TargetAction.publish :=
  (process_target_missing_blocks_nonshared_warns false [⟨"u", 1, "c", "x"⟩]
    (some ["Template:Foo"]) (some ["Template:Bar"]) none true).1 (by decide)

end Dibabel
